import Mathlib

/-!
Verification of the gap-aware ingestion and backfill engine of
`visual_market_analyzer` (app/services/candle_service.py,
data_ingestion.py, auto_backfill.py, realtime_streaming.py).

Timestamps are modelled as integers (seconds since an arbitrary epoch,
UTC).  Prices and volumes are modelled as integers; the engine never does
arithmetic on prices, only comparisons, so this loses nothing relevant.
-/

namespace VMA

/-! ## Interval token maps (candle_service.py)

The source looks intervals up in Python dicts with `.get(key, default)`;
each map below is that lookup, default included. -/

/-- `table_map.get(interval, "candles_1m")` from
`CandleService._query_db_candles` (candle_service.py lines 80-87).
Note the dict has no `"1d"` entry. -/
def table_map (interval : String) : String :=
  if interval = "1m" then "candles_1m"
  else if interval = "5m" then "candles_5m"
  else if interval = "15m" then "candles_15m"
  else if interval = "1h" then "candles_1h"
  else "candles_1m"

/-- `interval_map.get(interval, timedelta(minutes=1))` from
`CandleService._find_gaps` (candle_service.py lines 127-135), with
timedeltas in seconds. -/
def interval_map (interval : String) : Int :=
  if interval = "1m" then 60
  else if interval = "5m" then 300
  else if interval = "15m" then 900
  else if interval = "1h" then 3600
  else if interval = "1d" then 86400
  else 60

/-- `broker_interval_map.get(interval, "minute")` from
`CandleService._backfill_gap` (candle_service.py lines 190-198). -/
def broker_interval_map (interval : String) : String :=
  if interval = "1m" then "minute"
  else if interval = "5m" then "5minute"
  else if interval = "15m" then "15minute"
  else if interval = "1h" then "60minute"
  else if interval = "1d" then "day"
  else "minute"

/-- The interval token enumeration exposed at the boundary. -/
def intervalTokens : List String := ["1m", "5m", "15m", "1h", "1d"]

/-! ## Gap detector (`CandleService._find_gaps`, candle_service.py 109-178)

The function only reads each candle dict's `"bucket"` field, so the
candle list is embedded as the list of bucket timestamps.  Timezone
normalisation (`replace(tzinfo=utc)` on naive datetimes) is the identity
in this single-timezone integer model. -/

/-- The `for i in range(len(candles) - 1)` loop of `_find_gaps`: for each
adjacent pair, if `next_bucket > current_bucket + delta`, emit the gap
`(current_bucket + delta, next_bucket - delta)`. -/
def internal_gaps (delta : Int) : List Int → List (Int × Int)
  | b₁ :: b₂ :: rest =>
      (if b₂ > b₁ + delta then [(b₁ + delta, b₂ - delta)] else []) ++
        internal_gaps delta (b₂ :: rest)
  | _ => []

/-- `CandleService._find_gaps(candles, from_date, to_date, interval)`:
empty input yields the whole range as one gap; otherwise the leading gap
(first bucket later than `from + delta`), the internal gaps, and the
trailing gap (last bucket earlier than `to - delta`), in that order. -/
def find_gaps (candles : List Int) (from_date to_date : Int)
    (interval : String) : List (Int × Int) :=
  match candles with
  | [] => [(from_date, to_date)]
  | first :: rest =>
    (if first > from_date + interval_map interval
      then [(from_date, first - interval_map interval)] else []) ++
    internal_gaps (interval_map interval) (first :: rest) ++
    (if (first :: rest).getLast (List.cons_ne_nil first rest) <
        to_date - interval_map interval
      then [((first :: rest).getLast (List.cons_ne_nil first rest) +
        interval_map interval, to_date)]
      else [])

/-! ## Tick records

A row of the `tick_data` table / an element of the ingestion buffer:
`(time, instrument_token, ltp, volume, open_interest, bid_price,
ask_price, bid_qty, ask_qty)` (data_ingestion.py lines 32-42,
candle_service.py lines 244-310). -/

structure TickRecord where
  time : Int
  instrument_token : Int
  ltp : Int
  volume : Int
  open_interest : Int
  bid_price : Option Int
  ask_price : Option Int
  bid_qty : Option Int
  ask_qty : Option Int
deriving DecidableEq, Repr

/-! ## TickBuffer flush (`DataIngestionService._flush_buffer_internal`,
data_ingestion.py lines 55-70)

The flush is embedded as a state transformer on
(buffer, stored ticks): the bulk write either succeeds (appending the
batch to storage via `TickDataQueries.bulk_insert_ticks`) or raises, a
possibility modelled by the `write_ok` parameter.  The returned `Bool`
records whether a bulk write was attempted at all. -/

def flush_buffer_internal (buffer stored : List TickRecord)
    (write_ok : Bool) : List TickRecord × List TickRecord × Bool :=
  if buffer = [] then (buffer, stored, false)
  else if write_ok then ([], stored ++ buffer, true)
  else (buffer, stored, true)

/-! ## Conflict-ignoring tick insert

`CandleService._store_candles` inserts synthetic ticks with
`INSERT INTO tick_data ... ON CONFLICT DO NOTHING`
(candle_service.py lines 312-321). -/

/-- Modelled from the spec: the `tick_data` table's unique key.  The DDL
of `tick_data` is not part of the source tree (only `init_db.py` checks
of its existence are); the spec requires "conflict-tolerant, idempotent
semantics" for the synthetic-tick writes, which presumes a unique
constraint on the natural key `(time, instrument_token)`. -/
def tickKey (r : TickRecord) : Int × Int := (r.time, r.instrument_token)

/-- Whether a record with key `k` is already stored. -/
def hasKey (stored : List TickRecord) (k : Int × Int) : Bool :=
  stored.any fun s => tickKey s = k

/-- One row of `INSERT ... ON CONFLICT DO NOTHING`: a record whose key is
already present is skipped, otherwise it is appended. -/
def insertIgnore (stored : List TickRecord) (r : TickRecord) :
    List TickRecord :=
  if hasKey stored (tickKey r) then stored else stored ++ [r]

/-- `executemany` of the conflict-ignoring insert over a batch. -/
def bulkInsertIgnore (stored : List TickRecord) (rs : List TickRecord) :
    List TickRecord :=
  rs.foldl insertIgnore stored

/-! ## Storing historical bars
(`CandleService._store_candles`, candle_service.py lines 224-368) -/

/-- A historical bar from the broker: the dict
`{time, open, high, low, close, volume, open_interest}` (the `open`
field is spelled `opn` as `open` is reserved in Lean). -/
structure Bar where
  time : Int
  opn : Int
  high : Int
  low : Int
  close : Int
  volume : Int
  open_interest : Int
deriving DecidableEq, Repr

/-- The four synthetic ticks `_store_candles` builds for one 1-minute
bar (candle_service.py lines 240-310): the open at the bucket start with
the bar's volume, then the high at second 20, the low at second 40 and
the close at second 59, each with zero volume; the
`candle_time.replace(second=s) if candle_time.second == 0 else
candle_time` guard becomes `if time % 60 = 0 then time + s else time`. -/
def synth_ticks (token : Int) (c : Bar) : List TickRecord :=
  [⟨c.time, token, c.opn, c.volume, c.open_interest, none, none, none, none⟩,
   ⟨if c.time % 60 = 0 then c.time + 20 else c.time, token, c.high, 0,
     c.open_interest, none, none, none, none⟩,
   ⟨if c.time % 60 = 0 then c.time + 40 else c.time, token, c.low, 0,
     c.open_interest, none, none, none, none⟩,
   ⟨if c.time % 60 = 0 then c.time + 59 else c.time, token, c.close, 0,
     c.open_interest, none, none, none, none⟩]

/-- `CandleService._store_candles(candles, instrument_token, interval)`
as a transformer of the stored tick set: for `"1m"` it bulk-inserts the
synthetic ticks of every bar (conflict-ignoring); for any other interval
it only logs a warning and writes nothing.  The
`refresh_continuous_aggregate` calls do not change the stored ticks and
are not part of this state. -/
def store_candles (stored : List TickRecord) (candles : List Bar)
    (instrument_token : Int) (interval : String) : List TickRecord :=
  if interval = "1m" then
    bulkInsertIgnore stored
      ((candles.map (synth_ticks instrument_token)).flatten)
  else stored

/-! ## Backfilling one gap (`CandleService._backfill_gap`,
candle_service.py lines 180-222)

The broker fetch and the store are fallible collaborators, modelled by
an `Except` result and an `Except`-returning function.  The embedding
returns the final stored state together with a `Bool` recording whether
a store was performed; exceptions are logged and re-raised, so they
surface as `.error`.  The function performs exactly one fetch and at
most one store: there is no retry. -/

def backfill_gap (fetch : Except String (List Bar))
    (store : List Bar → Except String (List TickRecord))
    (stored : List TickRecord) :
    Except String (List TickRecord × Bool) :=
  match fetch with
  | .error e => .error e
  | .ok broker_candles =>
    if broker_candles = [] then .ok (stored, false)
    else
      match store broker_candles with
      | .error e => .error e
      | .ok stored' => .ok (stored', true)

/-- `_backfill_gap` with the store collaborator instantiated by the real
`_store_candles` (which never raises, its insert being
conflict-ignoring). -/
def backfill_gap_run (fetch : Except String (List Bar))
    (stored : List TickRecord) (instrument_token : Int)
    (interval : String) : Except String (List TickRecord × Bool) :=
  backfill_gap fetch
    (fun bars => .ok (store_candles stored bars instrument_token interval))
    stored

/-! ## Staleness policy (`should_backfill`, auto_backfill.py 48-76) -/

/-- The row `SELECT last_backfilled_date, last_backfilled_to FROM
backfill_status WHERE instrument_token = $1`. -/
structure BackfillStatusRow where
  last_backfilled_date : Int
  last_backfilled_to : Int
deriving DecidableEq, Repr

/-- `should_backfill`: no row means never backfilled, hence eligible;
otherwise eligible iff the last backfill ran more than 6 hours ago or
`last_backfilled_to` is more than 1 hour old (times in seconds). -/
def should_backfill (row : Option BackfillStatusRow) (now : Int) : Bool :=
  match row with
  | none => true
  | some r =>
    if now - r.last_backfilled_date > 6 * 3600 then true
    else if now - r.last_backfilled_to > 3600 then true
    else false

/-! ## Streaming reconnection backoff
(`RealtimeStreamingService.auto_streaming_loop`,
realtime_streaming.py lines 92-163)

Each outer-loop iteration either succeeds in `start_streaming` (which
resets `retry_delay` to 60) or raises (the handler sleeps the current
`retry_delay`, then doubles it capped at 600).  The loop is abstracted
by the sequence of these events; `backoff_delays` returns the sleeps
performed, in order. -/

inductive StreamEvent where
  | success
  | failure
deriving DecidableEq, Repr

/-- The sleeps of `auto_streaming_loop` along an event trace, starting
from retry delay `d` (initially 60): a failure sleeps the current delay
and doubles it capped at `max_retry_delay = 600`; a successful
`start_streaming` resets the delay to 60. -/
def backoff_delays (events : List StreamEvent) (d : Nat) : List Nat :=
  match events with
  | [] => []
  | .failure :: rest => d :: backoff_delays rest (min (d * 2) 600)
  | .success :: rest => backoff_delays rest 60

/-- OHLCV re-aggregation of a chronologically ordered, nonempty tick
list, as the aggregate engine derives one candle from the ticks of a
bucket: open is the first price, high/low the maximum/minimum price,
close the last price, volume the sum of tick volumes. -/
def re_aggregate : List TickRecord → Option (Int × Int × Int × Int × Int)
  | [] => none
  | t :: ts =>
    some (t.ltp,
      ((t :: ts).map TickRecord.ltp).foldl max t.ltp,
      ((t :: ts).map TickRecord.ltp).foldl min t.ltp,
      ((t :: ts).getLast (List.cons_ne_nil t ts)).ltp,
      ((t :: ts).map TickRecord.volume).sum)

/-! ## Theorems -/

/-! ### Conflict-ignoring insert lemmas -/

theorem hasKey_insertIgnore (s : List TickRecord) (r : TickRecord)
    (k : Int × Int) (h : hasKey s k = true) :
    hasKey (insertIgnore s r) k = true := by
  unfold insertIgnore
  split
  · exact h
  · simp only [hasKey, List.any_append] at h ⊢
    exact (Bool.or_eq_true _ _).mpr (Or.inl h)

theorem hasKey_insertIgnore_self (s : List TickRecord) (r : TickRecord) :
    hasKey (insertIgnore s r) (tickKey r) = true := by
  unfold insertIgnore
  split
  · assumption
  · simp [hasKey, List.any_append]

theorem hasKey_bulkInsertIgnore_mono (rs : List TickRecord) :
    ∀ (s : List TickRecord) (k : Int × Int), hasKey s k = true →
      hasKey (bulkInsertIgnore s rs) k = true := by
  induction rs with
  | nil => intro s k h; exact h
  | cons a rest ih =>
    intro s k h
    exact ih (insertIgnore s a) k (hasKey_insertIgnore s a k h)

theorem hasKey_bulkInsertIgnore_self (rs : List TickRecord) :
    ∀ (s : List TickRecord) (r : TickRecord), r ∈ rs →
      hasKey (bulkInsertIgnore s rs) (tickKey r) = true := by
  induction rs with
  | nil => intro s r h; cases h
  | cons a rest ih =>
    intro s r h
    rcases List.mem_cons.mp h with h | h
    · subst h
      exact hasKey_bulkInsertIgnore_mono rest (insertIgnore s r) _
        (hasKey_insertIgnore_self s r)
    · exact ih (insertIgnore s a) r h

theorem bulkInsertIgnore_noop (rs : List TickRecord) :
    ∀ (s : List TickRecord), (∀ r ∈ rs, hasKey s (tickKey r) = true) →
      bulkInsertIgnore s rs = s := by
  induction rs with
  | nil => intro s _; rfl
  | cons a rest ih =>
    intro s h
    have ha : insertIgnore s a = s := by
      unfold insertIgnore
      rw [if_pos (h a (List.mem_cons_self a rest))]
    show bulkInsertIgnore (insertIgnore s a) rest = s
    rw [ha]
    exact ih s fun r hr => h r (List.mem_cons_of_mem a hr)

theorem bulkInsertIgnore_idem (s rs : List TickRecord) :
    bulkInsertIgnore (bulkInsertIgnore s rs) rs = bulkInsertIgnore s rs :=
  bulkInsertIgnore_noop rs (bulkInsertIgnore s rs)
    fun r hr => hasKey_bulkInsertIgnore_self rs s r hr

/-- C2: a flush clears the buffer exactly when the bulk write succeeded
(or there was nothing to flush); on a failed write every buffered tick
stays in the buffer and storage is unchanged; flushing an empty buffer
attempts no write at all; and on success the buffer is cleared only
after the whole batch reached storage. -/
theorem flush_buffer_internal_spec (buffer stored : List TickRecord)
    (write_ok : Bool) :
    ((flush_buffer_internal buffer stored write_ok).1 = [] ↔
      buffer = [] ∨ write_ok = true) ∧
    (write_ok = false →
      (flush_buffer_internal buffer stored write_ok).1 = buffer ∧
        (flush_buffer_internal buffer stored write_ok).2.1 = stored) ∧
    (buffer = [] →
      flush_buffer_internal buffer stored write_ok = ([], stored, false)) ∧
    (write_ok = true → buffer ≠ [] →
      flush_buffer_internal buffer stored write_ok =
        ([], stored ++ buffer, true)) := by
  by_cases hb : buffer = [] <;> cases write_ok <;>
    simp [flush_buffer_internal, hb]

/-- Witness for C2 at a one-tick buffer and a failing write. -/
theorem flush_buffer_internal_spec_witness :
    (false = false →
      (flush_buffer_internal [⟨0, 1, 100, 5, 0, none, none, none, none⟩] []
          false).1 = [⟨0, 1, 100, 5, 0, none, none, none, none⟩] ∧
        (flush_buffer_internal [⟨0, 1, 100, 5, 0, none, none, none, none⟩] []
          false).2.1 = []) :=
  (flush_buffer_internal_spec [⟨0, 1, 100, 5, 0, none, none, none, none⟩] []
    false).2.1

/-- C3: re-running `_store_candles` with the same bars leaves the stored
tick set unchanged — backfilling the same (instrument, range, interval)
twice yields the same stored records as backfilling once, and the
conflict-ignoring insert makes the operation total (it cannot raise on
duplicates). -/
theorem store_candles_idempotent (stored : List TickRecord)
    (candles : List Bar) (instrument_token : Int) (interval : String) :
    store_candles (store_candles stored candles instrument_token interval)
        candles instrument_token interval =
      store_candles stored candles instrument_token interval := by
  unfold store_candles
  split
  · exact bulkInsertIgnore_idem stored _
  · rfl

/-- C7: `_backfill_gap` propagates an error to its caller exactly when
the provider fetch errors or (the fetch returned bars and) the store
errors; a fetch returning zero bars yields a normal return with no store
performed and the stored state unchanged. -/
theorem backfill_gap_error_iff (fetch : Except String (List Bar))
    (store : List Bar → Except String (List TickRecord))
    (stored : List TickRecord) :
    ((∃ e, backfill_gap fetch store stored = .error e) ↔
      (∃ e, fetch = .error e) ∨
        ∃ bars e, fetch = .ok bars ∧ bars ≠ [] ∧ store bars = .error e) ∧
    (fetch = .ok [] → backfill_gap fetch store stored = .ok (stored, false)) := by
  rcases fetch with e | bars
  · constructor
    · simp [backfill_gap]
    · intro h; cases h
  · by_cases hb : bars = []
    · subst hb
      constructor
      · simp [backfill_gap]
      · intro _; rfl
    · rcases hst : store bars with e | s
      · constructor
        · simp [backfill_gap, hb, hst]
        · simp [hb]
      · constructor
        · simp [backfill_gap, hb, hst]
        · simp [hb]

/-- Witness for C7: a provider returning zero bars gives a normal,
write-free return. -/
theorem backfill_gap_error_iff_witness :
    Except.ok (ε := String) ([] : List Bar) = .ok [] ∧
      backfill_gap (.ok []) (fun _ => .ok []) [] = .ok ([], false) :=
  ⟨rfl, (backfill_gap_error_iff (.ok []) (fun _ => .ok []) []).2 rfl⟩

/-- C8: the staleness policy is eligible exactly for a missing
BackfillStatus row, a last backfill more than 6 hours old, or a
`last_backfilled_to` more than 1 hour old; in particular 5 hours ago
with a 30-minute-old endpoint is not eligible, and 7 hours ago is
eligible regardless of the endpoint. -/
theorem should_backfill_spec :
    (∀ now : Int, should_backfill none now = true) ∧
    (∀ (now : Int) (r : BackfillStatusRow),
      should_backfill (some r) now = true ↔
        (now - r.last_backfilled_date > 6 * 3600 ∨
          now - r.last_backfilled_to > 3600)) ∧
    (∀ now : Int,
      should_backfill (some ⟨now - 5 * 3600, now - 1800⟩) now = false) ∧
    (∀ (now last_to : Int),
      should_backfill (some ⟨now - 7 * 3600, last_to⟩) now = true) := by
  refine ⟨fun now => rfl, fun now r => ?_, fun now => ?_, fun now last_to => ?_⟩
  · by_cases h1 : now - r.last_backfilled_date > 6 * 3600 <;>
      by_cases h2 : now - r.last_backfilled_to > 3600 <;>
      simp [should_backfill, h1, h2]
  · simp only [should_backfill]
    rw [if_neg (by omega), if_neg (by omega)]
  · simp only [should_backfill]
    rw [if_pos (by omega)]

/-- Witness for C8 at `now = 100000`. -/
theorem should_backfill_spec_witness :
    should_backfill none 100000 = true ∧
      should_backfill (some ⟨100000 - 5 * 3600, 100000 - 1800⟩) 100000 =
        false ∧
      should_backfill (some ⟨100000 - 7 * 3600, 0⟩) 100000 = true :=
  ⟨should_backfill_spec.1 100000, should_backfill_spec.2.2.1 100000,
    should_backfill_spec.2.2.2 100000 0⟩

/-- C10: for any interval other than "1m", `_store_candles` writes
nothing and leaves the stored state unchanged, so a gap backfilled at a
non-1m interval stores no data even when the provider returned bars. -/
theorem store_candles_non_1m_noop (stored : List TickRecord)
    (candles : List Bar) (instrument_token : Int) (interval : String)
    (h : interval ≠ "1m") :
    store_candles stored candles instrument_token interval = stored ∧
    (∀ bars : List Bar, bars ≠ [] →
      backfill_gap_run (.ok bars) stored instrument_token interval =
        .ok (stored, true)) := by
  constructor
  · simp [store_candles, h]
  · intro bars hb
    simp [backfill_gap_run, backfill_gap, hb, store_candles, h]

/-- Witness for C10 at interval "5m" with one provider bar. -/
theorem store_candles_non_1m_noop_witness :
    ("5m" : String) ≠ "1m" ∧
      store_candles [] [⟨36000, 10, 12, 9, 11, 100, 0⟩] 7 "5m" = [] :=
  ⟨by decide,
    (store_candles_non_1m_noop [] [⟨36000, 10, 12, 9, 11, 100, 0⟩] 7 "5m"
      (by decide)).1⟩

/-- C6: for a 1-minute bar whose time is a bucket start (second = 0) and
whose OHLC values are consistent (low ≤ open, close ≤ high), the
backfill path produces exactly four synthetic ticks — the open at the
bucket start carrying the bar's full volume, then the high, low and
close at seconds 20, 40 and 59 with zero volume — all strictly
time-ordered within the bucket, and re-aggregating them reproduces the
bar's open/high/low/close with the volume counted once. -/
theorem synth_ticks_spec (token : Int) (c : Bar)
    (ht : c.time % 60 = 0) (hlo : c.low ≤ c.opn) (hoh : c.opn ≤ c.high)
    (hlc : c.low ≤ c.close) (hch : c.close ≤ c.high) :
    (synth_ticks token c).length = 4 ∧
    synth_ticks token c =
      [⟨c.time, token, c.opn, c.volume, c.open_interest,
          none, none, none, none⟩,
        ⟨c.time + 20, token, c.high, 0, c.open_interest,
          none, none, none, none⟩,
        ⟨c.time + 40, token, c.low, 0, c.open_interest,
          none, none, none, none⟩,
        ⟨c.time + 59, token, c.close, 0, c.open_interest,
          none, none, none, none⟩] ∧
    List.Chain' (· < ·) ((synth_ticks token c).map TickRecord.time) ∧
    (∀ t ∈ synth_ticks token c, c.time ≤ t.time ∧ t.time < c.time + 60) ∧
    re_aggregate (synth_ticks token c) =
      some (c.opn, c.high, c.low, c.close, c.volume) := by
  refine ⟨rfl, ?_, ?_, ?_, ?_⟩
  · simp [synth_ticks, ht]
  · simp [synth_ticks, ht]
  · intro t htk
    simp [synth_ticks, ht] at htk
    rcases htk with h | h | h | h <;> subst h <;> simp
  · simp [synth_ticks, re_aggregate, ht, List.getLast]
    constructor <;> omega

/-- Witness for C6 on the bar (time 36000, open 10, high 12, low 9,
close 11, volume 100). -/
theorem synth_ticks_spec_witness :
    ((36000 : Int) % 60 = 0 ∧ (9 : Int) ≤ 10 ∧ (10 : Int) ≤ 12 ∧
        (9 : Int) ≤ 11 ∧ (11 : Int) ≤ 12) ∧
      re_aggregate (synth_ticks 7 ⟨36000, 10, 12, 9, 11, 100, 0⟩) =
        some (10, 12, 9, 11, 100) :=
  ⟨by decide,
    (synth_ticks_spec 7 ⟨36000, 10, 12, 9, 11, 100, 0⟩ (by decide)
      (by decide) (by decide) (by decide) (by decide)).2.2.2.2⟩

/-! ### Backoff lemmas -/

theorem backoff_delays_formula (n : Nat) :
    ∀ d : Nat, d ≤ 600 →
      backoff_delays (List.replicate n .failure) d =
        (List.range n).map fun i => min (d * 2 ^ i) 600 := by
  induction n with
  | zero => intro d _; rfl
  | succ n ih =>
    intro d hd
    rw [List.replicate_succ]
    show d :: backoff_delays (List.replicate n .failure) (min (d * 2) 600) = _
    rw [ih (min (d * 2) 600) (by omega), List.range_succ_eq_map,
      List.map_cons, List.map_map]
    congr 1
    · simp
      omega
    · apply List.map_congr_left
      intro i _
      show min (min (d * 2) 600 * 2 ^ i) 600 = min (d * 2 ^ (i + 1)) 600
      have h2 : d * 2 ^ (i + 1) = d * 2 * 2 ^ i := by ring
      rcases le_or_lt (d * 2) 600 with h | h
      · rw [min_eq_left h, h2]
      · have h1 : (1 : Nat) ≤ 2 ^ i := Nat.one_le_two_pow
        have hbig : 600 ≤ d * 2 ^ (i + 1) := by
          calc (600 : Nat) ≤ d * 2 := h.le
          _ ≤ d * 2 * 2 ^ i := Nat.le_mul_of_pos_right _ (by omega)
          _ = d * 2 ^ (i + 1) := h2.symm
        have h600 : 600 ≤ 600 * 2 ^ i := Nat.le_mul_of_pos_right _ (by omega)
        rw [min_eq_right h.le, min_eq_right h600, min_eq_right hbig]

theorem backoff_delays_bounds (events : List StreamEvent) :
    ∀ d : Nat, 60 ≤ d → d ≤ 600 →
      ∀ x ∈ backoff_delays events d, 60 ≤ x ∧ x ≤ 600 := by
  induction events with
  | nil => intro d _ _ x hx; cases hx
  | cons e rest ih =>
    intro d hd1 hd2 x hx
    cases e with
    | success => exact ih 60 (by omega) (by omega) x hx
    | failure =>
      rcases List.mem_cons.mp hx with h | h
      · subst h; exact ⟨hd1, hd2⟩
      · exact ih (min (d * 2) 600) (by omega) (by omega) x h

/-- C9: in the auto-streaming reconnection loop the backoff delay starts
at 60 s and doubles after each consecutive failure, capped at 600 s —
for n consecutive failures the sleeps are min(60·2^i, 600), so three
failures sleep 60 s, 120 s, 240 s — all sleeps lie in [60, 600], and a
successful `start_streaming` resets the delay to 60 s for the next
failure. -/
theorem auto_streaming_backoff_spec :
    backoff_delays [.failure, .failure, .failure] 60 = [60, 120, 240] ∧
    (∀ n, backoff_delays (List.replicate n .failure) 60 =
      (List.range n).map fun i => min (60 * 2 ^ i) 600) ∧
    (∀ (rest : List StreamEvent) (d : Nat),
      backoff_delays (.success :: rest) d = backoff_delays rest 60) ∧
    (∀ (rest : List StreamEvent) (d : Nat),
      backoff_delays (.failure :: rest) d =
        d :: backoff_delays rest (min (d * 2) 600)) ∧
    (∀ events, ∀ x ∈ backoff_delays events 60, 60 ≤ x ∧ x ≤ 600) :=
  ⟨by decide, fun n => backoff_delays_formula n 60 (by omega),
    fun rest d => rfl, fun rest d => rfl,
    fun events => backoff_delays_bounds events 60 (by omega) (by omega)⟩

/-- Witness for C9: the sleep after a first failure is 60 s and lies in
[60, 600]. -/
theorem auto_streaming_backoff_spec_witness :
    (60 : Nat) ∈ backoff_delays [.failure] 60 ∧ 60 ≤ 60 ∧ 60 ≤ 600 :=
  ⟨by decide, auto_streaming_backoff_spec.2.2.2.2 [.failure] 60 (by decide)⟩

/-! ### Gap detector lemmas -/

theorem interval_map_pos (interval : String) : 0 < interval_map interval := by
  unfold interval_map
  split_ifs <;> norm_num

theorem gap_width {δ a b : Int} (hδ : 0 < δ) (hdvd : δ ∣ (b - a))
    (h : a + δ < b) : a + δ ≤ b - δ := by
  obtain ⟨k, hk⟩ := hdvd
  have h1 : δ * 1 < δ * k := by rw [mul_one, ← hk]; omega
  have hk2 : (1 : Int) < k := lt_of_mul_lt_mul_left h1 hδ.le
  have h2 : δ * 2 ≤ δ * k := mul_le_mul_of_nonneg_left (by omega) hδ.le
  linarith [hk]

theorem chain_le_getLast (b : Int) (l : List Int)
    (h : List.Chain' (· ≤ ·) (b :: l)) :
    b ≤ (b :: l).getLast (List.cons_ne_nil b l) := by
  induction l generalizing b with
  | nil => exact le_refl b
  | cons b₂ rest ih =>
    rw [List.getLast_cons (List.cons_ne_nil b₂ rest)]
    exact le_trans (List.chain'_cons.mp h).1 (ih b₂ (List.chain'_cons.mp h).2)

theorem internal_gaps_span (δ : Int) (hδ : 0 < δ) :
    ∀ l : List Int, (∀ b ∈ l, δ ∣ b) →
      ∀ g ∈ internal_gaps δ l, g.1 ≤ g.2 := by
  intro l
  induction l with
  | nil => intro _ g hg; simp [internal_gaps] at hg
  | cons b₁ rest ih =>
    cases rest with
    | nil => intro _ g hg; simp [internal_gaps] at hg
    | cons b₂ rest₂ =>
      intro hal g hg
      simp only [internal_gaps, List.mem_append] at hg
      rcases hg with h | h
      · by_cases hgt : b₂ > b₁ + δ
        · rw [if_pos hgt] at h
          simp at h
          subst h
          have hd : δ ∣ (b₂ - b₁) :=
            dvd_sub (hal b₂ (by simp)) (hal b₁ (by simp))
          exact gap_width hδ hd hgt
        · rw [if_neg hgt] at h
          simp at h
      · exact ih (fun b hb => hal b (List.mem_cons_of_mem b₁ hb)) g h

theorem internal_gaps_lb (δ : Int) :
    ∀ (b : Int) (l : List Int), List.Chain' (· ≤ ·) (b :: l) →
      ∀ g ∈ internal_gaps δ (b :: l), b + δ ≤ g.1 := by
  intro b l
  induction l generalizing b with
  | nil => intro _ g hg; simp [internal_gaps] at hg
  | cons b₂ rest ih =>
    intro hch g hg
    have hb : b ≤ b₂ := (List.chain'_cons.mp hch).1
    simp only [internal_gaps, List.mem_append] at hg
    rcases hg with h | h
    · by_cases hgt : b₂ > b + δ
      · rw [if_pos hgt] at h
        simp at h
        subst h
        simp
      · rw [if_neg hgt] at h
        simp at h
    · have h2 := ih b₂ (List.chain'_cons.mp hch).2 g h
      linarith

theorem internal_gaps_ub (δ : Int) :
    ∀ (b : Int) (l : List Int), List.Chain' (· ≤ ·) (b :: l) →
      ∀ g ∈ internal_gaps δ (b :: l),
        g.2 + δ ≤ (b :: l).getLast (List.cons_ne_nil b l) := by
  intro b l
  induction l generalizing b with
  | nil => intro _ g hg; simp [internal_gaps] at hg
  | cons b₂ rest ih =>
    intro hch g hg
    rw [List.getLast_cons (List.cons_ne_nil b₂ rest)]
    have hlast : b₂ ≤ (b₂ :: rest).getLast (List.cons_ne_nil b₂ rest) :=
      chain_le_getLast b₂ rest (List.chain'_cons.mp hch).2
    simp only [internal_gaps, List.mem_append] at hg
    rcases hg with h | h
    · by_cases hgt : b₂ > b + δ
      · rw [if_pos hgt] at h
        simp at h
        subst h
        simp
        linarith
      · rw [if_neg hgt] at h
        simp at h
    · exact ih b₂ (List.chain'_cons.mp hch).2 g h

theorem internal_gaps_pairwise (δ : Int) (hδ : 0 < δ) :
    ∀ l : List Int, List.Chain' (· ≤ ·) l →
      List.Pairwise (fun g g' : Int × Int => g.2 < g'.1)
        (internal_gaps δ l) := by
  intro l
  induction l with
  | nil => intro _; simp [internal_gaps]
  | cons b₁ rest ih =>
    cases rest with
    | nil => intro _; simp [internal_gaps]
    | cons b₂ rest₂ =>
      intro hch
      simp only [internal_gaps]
      apply List.pairwise_append.mpr
      refine ⟨?_, ih (List.chain'_cons.mp hch).2, ?_⟩
      · by_cases hgt : b₂ > b₁ + δ
        · rw [if_pos hgt]; simp
        · rw [if_neg hgt]; simp
      · intro g hg g' hg'
        by_cases hgt : b₂ > b₁ + δ
        · rw [if_pos hgt] at hg
          simp at hg
          subst hg
          have h2 := internal_gaps_lb δ b₂ rest₂
            (List.chain'_cons.mp hch).2 g' hg'
          simp
          linarith
        · rw [if_neg hgt] at hg
          simp at hg

/-- C5: on every chronologically ordered candle sequence (including the
empty one) whose buckets sit on the interval grid, over any closed range
[from, to] at a supported interval, every gap `_find_gaps` returns
satisfies `gap_start ≤ gap_end` (so it covers at least one full interval
bucket), and the returned gaps are ordered and pairwise non-overlapping
(each gap ends strictly before the next begins). -/
theorem find_gaps_spans_ordered (candles : List Int)
    (from_date to_date : Int) (interval : String)
    (hiv : interval ∈ intervalTokens)
    (hrange : from_date ≤ to_date)
    (hsorted : List.Chain' (· ≤ ·) candles)
    (halign : ∀ b ∈ candles, interval_map interval ∣ b) :
    (∀ g ∈ find_gaps candles from_date to_date interval, g.1 ≤ g.2) ∧
    List.Pairwise (fun g g' : Int × Int => g.2 < g'.1)
      (find_gaps candles from_date to_date interval) := by
  have hδ : 0 < interval_map interval := interval_map_pos interval
  rcases candles with _ | ⟨first, rest⟩
  · constructor
    · intro g hg
      simp [find_gaps] at hg
      subst hg
      exact hrange
    · simp [find_gaps]
  · have hlast : first ≤ (first :: rest).getLast (List.cons_ne_nil first rest) :=
      chain_le_getLast first rest hsorted
    have hspan :=
      internal_gaps_span (interval_map interval) hδ (first :: rest) halign
    have hlb := internal_gaps_lb (interval_map interval) first rest hsorted
    have hub := internal_gaps_ub (interval_map interval) first rest hsorted
    have hpw :=
      internal_gaps_pairwise (interval_map interval) hδ (first :: rest) hsorted
    constructor
    · intro g hg
      simp only [find_gaps, List.mem_append, or_assoc] at hg
      rcases hg with h | h | h
      · by_cases h1 : first > from_date + interval_map interval
        · rw [if_pos h1] at h
          simp at h
          subst h
          simp
          linarith
        · rw [if_neg h1] at h
          simp at h
      · exact hspan g h
      · by_cases h2 : (first :: rest).getLast (List.cons_ne_nil first rest) <
            to_date - interval_map interval
        · rw [if_pos h2] at h
          simp at h
          subst h
          simp
          linarith
        · rw [if_neg h2] at h
          simp at h
    · simp only [find_gaps, List.append_assoc]
      apply List.pairwise_append.mpr
      refine ⟨?_, List.pairwise_append.mpr ⟨hpw, ?_, ?_⟩, ?_⟩
      · by_cases h1 : first > from_date + interval_map interval
        · rw [if_pos h1]; simp
        · rw [if_neg h1]; simp
      · by_cases h2 : (first :: rest).getLast (List.cons_ne_nil first rest) <
            to_date - interval_map interval
        · rw [if_pos h2]; simp
        · rw [if_neg h2]; simp
      · intro g hg g' hg'
        by_cases h2 : (first :: rest).getLast (List.cons_ne_nil first rest) <
            to_date - interval_map interval
        · rw [if_pos h2] at hg'
          simp at hg'
          subst hg'
          have h3 := hub g hg
          simp
          linarith
        · rw [if_neg h2] at hg'
          simp at hg'
      · intro g hg g' hg'
        by_cases h1 : first > from_date + interval_map interval
        · rw [if_pos h1] at hg
          simp at hg
          subst hg
          rcases List.mem_append.mp hg' with h' | h'
          · have h3 := hlb g' h'
            simp
            linarith
          · by_cases h2 : (first :: rest).getLast (List.cons_ne_nil first rest) <
                to_date - interval_map interval
            · rw [if_pos h2] at h'
              simp at h'
              subst h'
              simp
              linarith
            · rw [if_neg h2] at h'
              simp at h'
        · rw [if_neg h1] at hg
          simp at hg

/-- Witness for C5 on candles at 10:00 and 10:05 over [10:00, 10:12] at
1-minute interval. -/
theorem find_gaps_spans_ordered_witness :
    ("1m" ∈ intervalTokens ∧ (36000 : Int) ≤ 36720 ∧
        List.Chain' (· ≤ ·) [(36000 : Int), 36300] ∧
        ∀ b ∈ [(36000 : Int), 36300], interval_map "1m" ∣ b) ∧
      (∀ g ∈ find_gaps [36000, 36300] 36000 36720 "1m", g.1 ≤ g.2) ∧
        List.Pairwise (fun g g' : Int × Int => g.2 < g'.1)
          (find_gaps [36000, 36300] 36000 36720 "1m") :=
  ⟨⟨by decide, by decide, by norm_num [List.chain'_cons], by decide⟩,
    find_gaps_spans_ordered [36000, 36300] 36000 36720 "1m" (by decide)
      (by decide) (by norm_num [List.chain'_cons]) (by decide)⟩

/-- C1 counterexample: for candles at minute buckets 10:00, 10:01, 10:05
(36000, 36060, 36300 s) over the range [10:00, 10:06] at 1-minute
interval, `_find_gaps` does NOT return the claimed two gaps
[(10:02, 10:04), (10:06, 10:06)]: the trailing test
`last_bucket < to_date - delta` is `36300 < 36300`, which is false. -/
theorem find_gaps_spec_example_fails :
    find_gaps [36000, 36060, 36300] 36000 36360 "1m" ≠
      [(36120, 36240), (36360, 36360)] := by decide

/-- C1 amended: on those inputs `_find_gaps` returns exactly the single
internal gap (10:02, 10:04); no trailing gap is reported because the last
bucket 10:05 equals `to − interval` and is therefore not earlier than it. -/
theorem find_gaps_spec_example :
    find_gaps [36000, 36060, 36300] 36000 36360 "1m" = [(36120, 36240)] := by
  decide

/-- C4 counterexample: the unrecognized token "2m" is not rejected by any
consumer; each interval map silently substitutes its 1-minute default, so
"2m" is treated exactly like "1m" (here by the gap detector too). -/
theorem unrecognized_interval_not_rejected :
    "2m" ∉ intervalTokens ∧
      table_map "2m" = table_map "1m" ∧
      interval_map "2m" = interval_map "1m" ∧
      broker_interval_map "2m" = broker_interval_map "1m" ∧
      find_gaps [36000] 36000 36600 "2m" =
        find_gaps [36000] 36000 36600 "1m" := by decide

/-- C4 amended: every interval token outside the enumeration
{1m, 5m, 15m, 1h, 1d} is silently mapped to the 1-minute default by each
consumer (query table, gap-detector delta, broker interval), with no
error raised. -/
theorem unrecognized_interval_silently_defaults (interval : String)
    (h : interval ∉ intervalTokens) :
    table_map interval = "candles_1m" ∧ interval_map interval = 60 ∧
      broker_interval_map interval = "minute" := by
  simp only [intervalTokens, List.mem_cons, List.not_mem_nil, or_false,
    not_or] at h
  obtain ⟨h1, h5, h15, hh, hd⟩ := h
  simp [table_map, interval_map, broker_interval_map, h1, h5, h15, hh, hd]

/-- Witness for the C4 amended theorem at the concrete token "2m". -/
theorem unrecognized_interval_silently_defaults_witness :
    "2m" ∉ intervalTokens ∧
      (table_map "2m" = "candles_1m" ∧ interval_map "2m" = 60 ∧
        broker_interval_map "2m" = "minute") :=
  ⟨by decide, unrecognized_interval_silently_defaults "2m" (by decide)⟩

end VMA
